import Mathlib

/-!
Verification development for the product-catalog viewer
(`data-converter.js` and `app.js`).

The JavaScript sources are shallowly embedded: JS values reachable from
`JSON.parse` are modelled by `JsValue`, products by the `Product`
structure, the application singleton (`ProductTableApp`) by the
`AppState` structure, and each method by a pure function that threads
the state explicitly.  JS numbers are modelled by `ℚ` (all inputs in
question are exact decimals), the current time (`new Date().toISOString()`)
is passed in as an explicit `now : String` argument, and code that can
throw returns `Except`/`Option`.
-/

/-- A JavaScript value as reachable from JSON input, plus `undefined`
(the result of reading an absent property). -/
inductive JsValue where
  | undefined : JsValue
  | null : JsValue
  | bool : Bool → JsValue
  | num : ℚ → JsValue
  | str : String → JsValue
  | arr : List JsValue → JsValue
  | obj : List (String × JsValue) → JsValue

/-- A product id as stored at the various call sites: either a JS number
or a string (`app.js` stores numbers, the assignment text speaks of
numeric strings; `===` never identifies the two). -/
inductive JsId where
  | num : ℚ → JsId
  | str : String → JsId
deriving DecidableEq, Repr

def isWsChar (c : Char) : Bool :=
  c = ' ' || c = '\t' || c = '\n' || c = '\r'

def skipWs : List Char → List Char
  | [] => []
  | c :: t => if isWsChar c then skipWs t else c :: t

def digitVal (c : Char) : Nat := c.toNat - '0'.toNat

/-- Longest run of decimal digits at the head of the list, and the rest. -/
def leadingDigits : List Char → (List Char × List Char)
  | [] => ([], [])
  | c :: t =>
    if c.isDigit then
      let p := leadingDigits t
      (c :: p.1, p.2)
    else ([], c :: t)

def digitsToNat (ds : List Char) : Nat :=
  ds.foldl (fun acc c => acc * 10 + digitVal c) 0

def isHexChar (c : Char) : Bool :=
  c.isDigit || ('a' ≤ c && c ≤ 'f') || ('A' ≤ c && c ≤ 'F')

def hexVal (c : Char) : Nat :=
  if c.isDigit then digitVal c
  else if 'a' ≤ c && c ≤ 'f' then c.toNat - 'a'.toNat + 10
  else c.toNat - 'A'.toNat + 10

/-- Body of a JSON string literal (after the opening quote): the decoded
characters and the input after the closing quote. -/
def parseStringBody : List Char → Option (List Char × List Char)
  | [] => none
  | '"' :: t => some ([], t)
  | '\\' :: e :: t2 =>
    if e = 'u' then
      match t2 with
      | a :: b :: c :: d :: t3 =>
        if isHexChar a && isHexChar b && isHexChar c && isHexChar d then
          (parseStringBody t3).map (fun p =>
            (Char.ofNat (((hexVal a * 16 + hexVal b) * 16 + hexVal c) * 16 + hexVal d) :: p.1, p.2))
        else none
      | _ => none
    else
      let esc : Option Char :=
        if e = '"' then some '"'
        else if e = '\\' then some '\\'
        else if e = '/' then some '/'
        else if e = 'n' then some '\n'
        else if e = 't' then some '\t'
        else if e = 'r' then some '\r'
        else if e = 'b' then some (Char.ofNat 8)
        else if e = 'f' then some (Char.ofNat 12)
        else none
      match esc with
      | some c => (parseStringBody t2).map (fun p => (c :: p.1, p.2))
      | none => none
  | '\\' :: [] => none
  | c :: t => (parseStringBody t).map (fun p => (c :: p.1, p.2))

/-- A JSON number starting at a digit: its value and the rest of the input. -/
def parseNumb (cs : List Char) : Option (ℚ × List Char) :=
  let ip := leadingDigits cs
  if ip.1.isEmpty then none
  else
    let intVal : ℚ := (digitsToNat ip.1 : ℚ)
    let afterFrac : Option (ℚ × List Char) :=
      match ip.2 with
      | '.' :: t =>
        let fp := leadingDigits t
        if fp.1.isEmpty then none
        else some (intVal + (digitsToNat fp.1 : ℚ) / ((10 : ℚ) ^ fp.1.length), fp.2)
      | r => some (intVal, r)
    match afterFrac with
    | none => none
    | some (v, r) =>
      match r with
      | 'e' :: t =>
        match t with
        | '-' :: t2 =>
          let ep := leadingDigits t2
          if ep.1.isEmpty then none else some (v / (10 : ℚ) ^ digitsToNat ep.1, ep.2)
        | '+' :: t2 =>
          let ep := leadingDigits t2
          if ep.1.isEmpty then none else some (v * (10 : ℚ) ^ digitsToNat ep.1, ep.2)
        | _ =>
          let ep := leadingDigits t
          if ep.1.isEmpty then none else some (v * (10 : ℚ) ^ digitsToNat ep.1, ep.2)
      | 'E' :: t =>
        match t with
        | '-' :: t2 =>
          let ep := leadingDigits t2
          if ep.1.isEmpty then none else some (v / (10 : ℚ) ^ digitsToNat ep.1, ep.2)
        | '+' :: t2 =>
          let ep := leadingDigits t2
          if ep.1.isEmpty then none else some (v * (10 : ℚ) ^ digitsToNat ep.1, ep.2)
        | _ =>
          let ep := leadingDigits t
          if ep.1.isEmpty then none else some (v * (10 : ℚ) ^ digitsToNat ep.1, ep.2)
      | _ => some (v, r)

mutual

/-- Fuel-bounded recursive-descent JSON value parser (models `JSON.parse`;
running out of fuel counts as a parse failure, and the fuel supplied by
`parseJson` suffices for any input of the source's size class). -/
def parseVal : Nat → List Char → Option (JsValue × List Char)
  | 0, _ => none
  | f + 1, cs =>
    match skipWs cs with
    | [] => none
    | 'n' :: 'u' :: 'l' :: 'l' :: r => some (.null, r)
    | 't' :: 'r' :: 'u' :: 'e' :: r => some (.bool true, r)
    | 'f' :: 'a' :: 'l' :: 's' :: 'e' :: r => some (.bool false, r)
    | '"' :: r => (parseStringBody r).map (fun p => (.str (String.mk p.1), p.2))
    | '[' :: r =>
      (match skipWs r with
       | ']' :: r2 => some (.arr [], r2)
       | _ => (parseElems f r).map (fun p => (.arr p.1, p.2)))
    | '\x7b' :: r =>
      (match skipWs r with
       | '\x7d' :: r2 => some (.obj [], r2)
       | _ => (parseMembers f r).map (fun p => (.obj p.1, p.2)))
    | '-' :: r => (parseNumb r).map (fun p => (.num (-p.1), p.2))
    | c :: r =>
      if c.isDigit then (parseNumb (c :: r)).map (fun p => (.num p.1, p.2)) else none

/-- Comma-separated JSON values up to a closing bracket. -/
def parseElems : Nat → List Char → Option (List JsValue × List Char)
  | 0, _ => none
  | f + 1, cs =>
    match parseVal f cs with
    | none => none
    | some (v, r) =>
      match skipWs r with
      | ',' :: r2 => (parseElems f r2).map (fun p => (v :: p.1, p.2))
      | ']' :: r2 => some ([v], r2)
      | _ => none

/-- Comma-separated JSON object members up to a closing brace. -/
def parseMembers : Nat → List Char → Option (List (String × JsValue) × List Char)
  | 0, _ => none
  | f + 1, cs =>
    match skipWs cs with
    | '"' :: r =>
      (match parseStringBody r with
       | none => none
       | some (k, r2) =>
         match skipWs r2 with
         | ':' :: r3 =>
           (match parseVal f r3 with
            | none => none
            | some (v, r4) =>
              match skipWs r4 with
              | ',' :: r5 => (parseMembers f r5).map (fun p => ((String.mk k, v) :: p.1, p.2))
              | '\x7d' :: r5 => some ([(String.mk k, v)], r5)
              | _ => none)
         | _ => none)
    | _ => none

end

/-- `JSON.parse` on a whole string: `none` models a thrown `SyntaxError`. -/
def parseJson (s : String) : Option JsValue :=
  match parseVal (2 * s.length + 4) s.data with
  | some (v, r) => if (skipWs r).isEmpty then some v else none
  | none => none

/-- Display form of a JS number (exact for the integral values exercised
by the source's data; non-integral rationals keep Lean's `num/den` form,
a formatting-only divergence from JS float printing). -/
def ratToDisplay (q : ℚ) : String :=
  if q.den = 1 then toString q.num else toString q

mutual

/-- JS `String(v)` conversion. -/
def jsToString : JsValue → String
  | .undefined => "undefined"
  | .null => "null"
  | .bool b => if b then "true" else "false"
  | .num q => ratToDisplay q
  | .str s => s
  | .arr xs => jsJoinElems xs
  | .obj _ => "[object Object]"

/-- JS array-to-string: elements joined by commas. -/
def jsJoinElems : List JsValue → String
  | [] => ""
  | [x] => jsElemToString x
  | x :: y :: t => jsElemToString x ++ "," ++ jsJoinElems (y :: t)

/-- Inside a join, `null` and `undefined` render as the empty string. -/
def jsElemToString : JsValue → String
  | .null => ""
  | .undefined => ""
  | v => jsToString v

end

def numExpPart (v : ℚ) : List Char → Option ℚ
  | '-' :: t =>
    let ep := leadingDigits t
    if ep.1.isEmpty || !ep.2.isEmpty then none else some (v / (10 : ℚ) ^ digitsToNat ep.1)
  | '+' :: t =>
    let ep := leadingDigits t
    if ep.1.isEmpty || !ep.2.isEmpty then none else some (v * (10 : ℚ) ^ digitsToNat ep.1)
  | t =>
    let ep := leadingDigits t
    if ep.1.isEmpty || !ep.2.isEmpty then none else some (v * (10 : ℚ) ^ digitsToNat ep.1)

def numExpTail (v : ℚ) : List Char → Option ℚ
  | [] => some v
  | 'e' :: t => numExpPart v t
  | 'E' :: t => numExpPart v t
  | _ => none

def numCore (cs : List Char) : Option ℚ :=
  let ip := leadingDigits cs
  if ip.1.isEmpty then
    match ip.2 with
    | '.' :: t =>
      let fp := leadingDigits t
      if fp.1.isEmpty then none
      else numExpTail ((digitsToNat fp.1 : ℚ) / (10 : ℚ) ^ fp.1.length) fp.2
    | _ => none
  else
    match ip.2 with
    | '.' :: t =>
      let fp := leadingDigits t
      numExpTail ((digitsToNat ip.1 : ℚ) + (digitsToNat fp.1 : ℚ) / (10 : ℚ) ^ fp.1.length) fp.2
    | r => numExpTail (digitsToNat ip.1 : ℚ) r

/-- Numeric value of a whole string, JS `Number(string)` style: optional
sign, decimal/fractional/exponent forms; `none` models `NaN`.
(Hex and `Infinity` forms are out of the source's input range and map to
`none`.) -/
def numFromChars : List Char → Option ℚ
  | '-' :: t => (numCore t).map Neg.neg
  | '+' :: t => numCore t
  | cs => numCore cs

def jsStrToNumber (s : String) : Option ℚ :=
  let cs := (s.trim).data
  if cs.isEmpty then some 0 else numFromChars cs

/-- JS `Number(v)`; `none` models `NaN`.  (`Number` of a non-empty array
goes through its joined string in JS; those inputs do not occur in the
catalog data and are mapped to `NaN` here.) -/
def jsToNumber : JsValue → Option ℚ
  | .undefined => none
  | .null => some 0
  | .bool b => some (if b then 1 else 0)
  | .num q => some q
  | .str s => jsStrToNumber s
  | .arr [] => some 0
  | .arr (_ :: _) => none
  | .obj _ => none

/-- JS truthiness of a value. -/
def truthy : JsValue → Bool
  | .undefined => false
  | .null => false
  | .bool b => b
  | .num q => decide (q ≠ 0)
  | .str s => decide (s ≠ "")
  | .arr _ => true
  | .obj _ => true

def isNullish : JsValue → Bool
  | .null => true
  | .undefined => true
  | _ => false

/-- Property read on a value that is not `null`/`undefined`: object lookup
(later duplicate keys win, as in `JSON.parse`), `undefined` otherwise. -/
def getProp (v : JsValue) (name : String) : JsValue :=
  match v with
  | .obj fields =>
    match fields.reverse.find? (fun kv => decide (kv.1 = name)) with
    | some kv => kv.2
    | none => .undefined
  | _ => .undefined

/-- Optional chaining `v?.name`. -/
def optChain (v : JsValue) (name : String) : JsValue :=
  if isNullish v then .undefined else getProp v name

/-- `String(x || '')`: stringify a truthy value, default `""`. -/
def strOrEmpty (v : JsValue) : String :=
  if truthy v then jsToString v else ""

/-- `Number(x) || 0`: numeric coercion with `NaN` (and `0` itself)
collapsing to `0`. -/
def numOr0 (v : JsValue) : ℚ :=
  (jsToNumber v).getD 0

structure Category where
  id : ℚ
  name : String
  slug : String
  image : String
  creationAt : String
  updatedAt : String
deriving DecidableEq, Repr

structure Comment where
  id : String
  content : String
  author : String
  createdAt : String
deriving DecidableEq, Repr

/-- Canonical product record.  `comments` and `isDeleted` are `Option`s
because the JS objects may simply lack those properties; `none` models
the absent property. -/
structure Product where
  id : JsId
  title : String
  slug : String
  price : ℚ
  description : String
  category : Category
  images : List String
  creationAt : String
  updatedAt : String
  isDeleted : Option Bool
  comments : Option (List Comment)
deriving DecidableEq, Repr

/-- One element of the parsed array mapped to the fixed record shape of
`DataConverter.jsonToObject`.  Reading `product.id` on a `null` element
throws a `TypeError` in JS, modelled by `Except.error`. -/
def normalizeProduct (p : JsValue) : Except Unit Product :=
  if isNullish p then .error ()
  else
    let cat := getProp p "category"
    .ok
      { id := JsId.num (numOr0 (getProp p "id"))
        title := strOrEmpty (getProp p "title")
        slug := strOrEmpty (getProp p "slug")
        price := numOr0 (getProp p "price")
        description := strOrEmpty (getProp p "description")
        category :=
          { id := numOr0 (optChain cat "id")
            name := strOrEmpty (optChain cat "name")
            slug := strOrEmpty (optChain cat "slug")
            image := strOrEmpty (optChain cat "image")
            creationAt := strOrEmpty (optChain cat "creationAt")
            updatedAt := strOrEmpty (optChain cat "updatedAt") }
        images :=
          match getProp p "images" with
          | .arr xs => xs.map jsToString
          | _ => []
        creationAt := strOrEmpty (getProp p "creationAt")
        updatedAt := strOrEmpty (getProp p "updatedAt")
        isDeleted := none
        comments := none }

/-- `Array.prototype.map` under a `try`: the callbacks run left to right
and the first thrown exception aborts the whole map. -/
def mapOrThrow (f : α → Except ε β) : List α → Except ε (List β)
  | [] => .ok []
  | x :: t =>
    match f x with
    | .error e => .error e
    | .ok y =>
      match mapOrThrow f t with
      | .error e => .error e
      | .ok ys => .ok (y :: ys)

/-- `DataConverter.jsonToObject`: parse, validate the top level is an
array, and map every element to the fixed shape; any exception
(parse error or `TypeError` on a `null` element) is caught and yields `[]`. -/
def jsonToObject (jsonString : String) : List Product :=
  match parseJson jsonString with
  | none => []
  | some v =>
    match v with
    | .arr xs =>
      match mapOrThrow normalizeProduct xs with
      | .ok l => l
      | .error _ => []
    | _ => []

/-- The `Map` key `` `${category.id}-${category.name}` ``. -/
def catKey (c : Category) : String :=
  ratToDisplay c.id ++ "-" ++ c.name

def uniqueCatsAux : List Product → List String → List Category
  | [], _ => []
  | p :: t, seen =>
    if truthy (.num p.category.id) then
      if seen.contains (catKey p.category) then uniqueCatsAux t seen
      else p.category :: uniqueCatsAux t (catKey p.category :: seen)
    else uniqueCatsAux t seen

/-- `DataConverter.getUniqueCategories`: first category payload per
`id-name` key, in first-seen order; products without a truthy
`category.id` are skipped. -/
def getUniqueCategories (products : List Product) : List Category :=
  uniqueCatsAux products []

/-- `x || 0` on an already-numeric price (identity on `ℚ`, kept for
faithfulness to the source text). -/
def jsOr0 (q : ℚ) : ℚ := if q = 0 then 0 else q

/-- `Math.round`: round half away from zero upward (`floor (x + 1/2)`). -/
def jsRound (q : ℚ) : ℤ := ⌊q + 1 / 2⌋

structure Stats where
  totalProducts : Nat
  totalCategories : Nat
  averagePrice : ℚ
  minPrice : ℚ
  maxPrice : ℚ
  totalValue : ℚ
deriving DecidableEq, Repr

/-- `DataConverter.calculateStatistics`. -/
def calculateStatistics (products : List Product) : Stats :=
  if products.isEmpty then
    { totalProducts := 0, totalCategories := 0, averagePrice := 0
      minPrice := 0, maxPrice := 0, totalValue := 0 }
  else
    let categories := getUniqueCategories products
    let totalPrice := products.foldl (fun sum p => sum + jsOr0 p.price) 0
    let prices := (products.map (fun p => jsOr0 p.price)).filter (fun q => decide (0 < q))
    { totalProducts := products.length
      totalCategories := categories.length
      averagePrice :=
        if prices.length ≠ 0 then
          (jsRound (totalPrice / (prices.length : ℚ) * 100) : ℚ) / 100
        else 0
      minPrice :=
        match prices with
        | [] => 0
        | h :: t => t.foldl min h
      maxPrice :=
        match prices with
        | [] => 0
        | h :: t => t.foldl max h
      totalValue := totalPrice }

/-- JS `<` on two strings (lexicographic). -/
def jsStrLt (s t : String) : Bool := decide (s < t)

/-- JS `<` on two ids, following the relational-comparison rules:
numbers compare numerically, strings lexicographically, and a mixed
comparison coerces the string to a number (`NaN` compares false). -/
def jsIdLt : JsId → JsId → Bool
  | .num x, .num y => decide (x < y)
  | .str x, .str y => jsStrLt x y
  | .num x, .str y =>
    match jsStrToNumber y with
    | none => false
    | some q => decide (x < q)
  | .str x, .num y =>
    match jsStrToNumber x with
    | none => false
    | some q => decide (q < y)

/-- The comparator body shared by every `sortProducts` branch:
`a < b → -1 (or 1 if descending)`, `a > b → 1 (or -1)`, ties → 0. -/
def cmpDir (ascending : Bool) (ltAB ltBA : Bool) : Int :=
  if ltAB then (if ascending then -1 else 1)
  else if ltBA then (if ascending then 1 else -1)
  else 0

/-- `DataConverter.sortProducts`' comparator, dispatching on the field. -/
def sortCmp (sortBy : String) (ascending : Bool) (a b : Product) : Int :=
  match sortBy with
  | "title" =>
    cmpDir ascending (jsStrLt a.title.toLower b.title.toLower) (jsStrLt b.title.toLower a.title.toLower)
  | "price" =>
    cmpDir ascending (decide (a.price < b.price)) (decide (b.price < a.price))
  | "category" =>
    cmpDir ascending (jsStrLt a.category.name.toLower b.category.name.toLower)
      (jsStrLt b.category.name.toLower a.category.name.toLower)
  | _ =>
    cmpDir ascending (jsIdLt a.id b.id) (jsIdLt b.id a.id)

/-- "a sorts no later than b" under the comparator. -/
def sortLe (sortBy : String) (ascending : Bool) (a b : Product) : Bool :=
  decide (sortCmp sortBy ascending a b ≤ 0)

/-- `DataConverter.sortProducts`: a stable sort of a copy of the list by
the comparator (`Array.prototype.sort` is required to be stable; the
embedding uses merge sort, which is). -/
def sortProducts (products : List Product) (sortBy : String) (ascending : Bool) : List Product :=
  products.mergeSort (sortLe sortBy ascending)

/-- The mutable fields of the `ProductTableApp` singleton. -/
structure AppState where
  products : List Product
  filteredProducts : List Product
  currentPage : Nat
  pageSize : Nat
  searchTerm : String
  selectedCategory : String
  sortField : String
  sortAscending : Bool
deriving DecidableEq, Repr

/-- In-place mutation of the element at `findIndex`: replace the first
element satisfying `p` by its image under `f`, leave the list unchanged
when there is none. -/
def updateFirst (p : α → Bool) (f : α → α) : List α → List α
  | [] => []
  | a :: t => if p a then f a :: t else a :: updateFirst p f t

/-- `splice(findIndex, 1)`: drop the first element satisfying `p`. -/
def removeFirst (p : α → Bool) : List α → List α
  | [] => []
  | a :: t => if p a then t else a :: removeFirst p t

/-- `p.id === productId` (strict equality on the id value). -/
def idMatches (pid : JsId) (p : Product) : Bool := decide (p.id = pid)

/-- Truncation toward zero, as `parseInt` applied to a JS number. -/
def ratTrunc (q : ℚ) : ℤ := if 0 ≤ q then ⌊q⌋ else ⌈q⌉

def parseIntDigits (cs : List Char) : Option Nat :=
  let p := leadingDigits cs
  if p.1.isEmpty then none else some (digitsToNat p.1)

/-- JS `parseInt` on a string: skip leading whitespace, optional sign,
longest digit prefix; `none` models `NaN`. -/
def parseIntStr (s : String) : Option ℤ :=
  match skipWs s.data with
  | '-' :: t => (parseIntDigits t).map (fun n => -(n : ℤ))
  | '+' :: t => (parseIntDigits t).map (fun n => (n : ℤ))
  | cs => (parseIntDigits cs).map (fun n => (n : ℤ))

/-- `parseInt(p.id)` for an id that is either a number or a string. -/
def parseIntJs : JsId → Option ℤ
  | .num q => some (ratTrunc q)
  | .str s => parseIntStr s

/-- `isNaN(idNum) ? 0 : idNum` for one product. -/
def parsedIdOr0 (p : Product) : ℤ := (parseIntJs p.id).getD 0

/-- `Math.max(...)` over the parsed ids of a non-empty list (0 for `[]`,
a case `getNextProductId` never reaches). -/
def maxParsedId (l : List Product) : ℤ :=
  match l.map parsedIdOr0 with
  | [] => 0
  | h :: t => t.foldl max h

/-- `ProductTableApp.getNextProductId`. -/
def getNextProductId (products : List Product) : String :=
  if products.isEmpty then "1"
  else toString (maxParsedId products + 1)

/-- `comment.id.match(/c(\d+)/)`: scan for the first `c` that is followed
by a digit and read the maximal digit run after it; 0 when there is no
match. -/
def commentNumAux : List Char → Nat
  | [] => 0
  | 'c' :: t =>
    match leadingDigits t with
    | ([], _) => commentNumAux t
    | (ds, _) => digitsToNat ds
  | _ :: t => commentNumAux t

def parseCommentNum (s : String) : Nat := commentNumAux s.data

/-- `ProductTableApp.getNextCommentId` (the `Math.max` over the parsed
numbers of a non-empty list equals a 0-seeded fold since they are all
non-negative). -/
def getNextCommentId (products : List Product) (pid : JsId) : String :=
  match products.find? (idMatches pid) with
  | none => "c1"
  | some p =>
    match p.comments with
    | none => "c1"
    | some [] => "c1"
    | some cs =>
      "c" ++ toString ((cs.map (fun c => parseCommentNum c.id)).foldl max 0 + 1)

/-- `ProductTableApp.addComment` (the DOM re-render and notification are
presentation effects outside the state).  `filteredProducts` holds
references into `products` (`[...this.products]`, `filter` and
`[...].sort` copy the array, not the elements), so when the target id
also occurs in the filtered view the second `push` lands on the very
same comments array and the comment is appended twice.  The value model
writes the resulting shared comments list into the first id match of
both views, which the program keeps identical through that sharing. -/
def addComment (now : String) (pid : JsId) (content author : String) (s : AppState) : AppState :=
  match s.products.find? (idMatches pid) with
  | none => s
  | some p =>
    let c : Comment :=
      { id := getNextCommentId s.products pid, content := content
        author := author, createdAt := now }
    let final := p.comments.getD []
      ++ (if s.filteredProducts.any (idMatches pid) then [c, c] else [c])
    { s with
      products := updateFirst (idMatches pid)
        (fun q => { q with comments := some final, updatedAt := now }) s.products
      filteredProducts := updateFirst (idMatches pid)
        (fun q => { q with comments := some final, updatedAt := now }) s.filteredProducts }

/-- `ProductTableApp.deleteComment`: silent no-op when the product, its
comments array, or the comment is absent.  The canonical splice and the
filtered-view splice hit the same shared comments array, so the second
splice removes a further occurrence of the comment id whenever one is
left (which is exactly the case when `addComment` had doubled it); the
resulting shared list is written into the first id match of both views. -/
def deleteComment (now : String) (pid : JsId) (cid : String) (s : AppState) : AppState :=
  match s.products.find? (idMatches pid) with
  | none => s
  | some p =>
    match p.comments with
    | none => s
    | some cs =>
      if cs.any (fun c => decide (c.id = cid)) then
        let once := removeFirst (fun c => decide (c.id = cid)) cs
        let final :=
          if s.filteredProducts.any (idMatches pid)
              && once.any (fun c => decide (c.id = cid)) then
            removeFirst (fun c => decide (c.id = cid)) once
          else once
        { s with
          products := updateFirst (idMatches pid)
            (fun q => { q with comments := some final, updatedAt := now }) s.products
          filteredProducts := updateFirst (idMatches pid)
            (fun q => { q with comments := some final, updatedAt := now }) s.filteredProducts }
      else s

/-- The per-product mutation of `softDeleteProduct`. -/
def markDeleted (now : String) (p : Product) : Product :=
  { p with isDeleted := some true, updatedAt := now }

/-- `ProductTableApp.softDeleteProduct`: flag the first id match in the
canonical list and in the filtered view, refreshing `updatedAt`;
silent no-op when the id is unknown. -/
def softDeleteProduct (now : String) (pid : JsId) (s : AppState) : AppState :=
  if s.products.any (idMatches pid) then
    { s with
      products := updateFirst (idMatches pid) (markDeleted now) s.products
      filteredProducts := updateFirst (idMatches pid) (markDeleted now) s.filteredProducts }
  else s

/-- `Math.ceil(this.filteredProducts.length / this.pageSize)` (for a
positive page size, which the app fixes at 10). -/
def totalPagesCode (s : AppState) : Nat :=
  (s.filteredProducts.length + s.pageSize - 1) / s.pageSize

/-- Modelled from the spec: the page count with "minimum 1 page even when
count is 0", the bound the pagination invariant is stated against. -/
def totalPagesMin1 (s : AppState) : Nat :=
  max 1 (totalPagesCode s)

/-- `ProductTableApp.prevPage`. -/
def prevPage (s : AppState) : AppState :=
  if 1 < s.currentPage then { s with currentPage := s.currentPage - 1 } else s

/-- `ProductTableApp.nextPage`. -/
def nextPage (s : AppState) : AppState :=
  if s.currentPage < totalPagesCode s then { s with currentPage := s.currentPage + 1 } else s

/-- A user-driven sequence of pager clicks; `true` is `nextPage`,
`false` is `prevPage`. -/
def applyPageOps : List Bool → AppState → AppState
  | [], s => s
  | op :: t, s => applyPageOps t (if op then nextPage s else prevPage s)

/-- Number of comments on the first product with the given id (0 when
the product is absent or has no comments array). -/
def commentCountAt (s : AppState) (pid : JsId) : Nat :=
  match s.products.find? (idMatches pid) with
  | none => 0
  | some p => (p.comments.getD []).length

/-- Modelled from the spec: `averagePrice` "computed only over the
subset of strictly-positive prices", i.e. the mean of the positive
prices themselves, rounded to 2 decimals.  Used only to compare the
spec's reading with what `calculateStatistics` computes. -/
def specAveragePrice (products : List Product) : ℚ :=
  let prices := (products.map (fun p => jsOr0 p.price)).filter (fun q => decide (0 < q))
  if prices.length ≠ 0 then
    (jsRound (prices.sum / (prices.length : ℚ) * 100) : ℚ) / 100
  else 0

/-- The strictly-positive prices of a list, the sub-population
`averagePrice`/`minPrice`/`maxPrice` are computed against. -/
def posPrices (l : List Product) : List ℚ :=
  (l.map Product.price).filter (fun q => decide (0 < q))

def defaultCategory : Category :=
  { id := 0, name := "", slug := "", image := "", creationAt := "", updatedAt := "" }

/-- A neutral product fixture for concrete states. -/
def defaultProduct : Product :=
  { id := JsId.num 0, title := "", slug := "", price := 0, description := ""
    category := defaultCategory, images := [], creationAt := "", updatedAt := ""
    isDeleted := none, comments := none }

/-- Fixture with a chosen price. -/
def mkPriceP (q : ℚ) : Product := { defaultProduct with price := q }

/-- Fixture with a chosen id. -/
def mkIdP (i : JsId) : Product := { defaultProduct with id := i }

/-- The record `jsonToObject` produces for the element `\x7b\x7d`. -/
def emptyObjProduct : Product := defaultProduct

def nullArrStr : String := "[null]"

def emptyObjStr : String := "[\x7b\x7d]"

def negPriceStr : String := "[\x7b\"price\":-5\x7d]"

/-- App state fixture: 25 products in the filtered view, page size 10,
page 1 (the worked pagination example of the spec). -/
def demoPageState : AppState :=
  { products := List.replicate 25 defaultProduct
    filteredProducts := List.replicate 25 defaultProduct
    currentPage := 1, pageSize := 10
    searchTerm := "", selectedCategory := "", sortField := "id", sortAscending := true }

/-- Product fixture: id 1, one comment `c1`. -/
def demoProd : Product :=
  { mkIdP (JsId.num 1) with
    comments := some [{ id := "c1", content := "x", author := "a", createdAt := "" }] }

/-- App state fixture with the single product `demoProd`. -/
def demoCommentState : AppState :=
  { products := [demoProd]
    filteredProducts := [demoProd]
    currentPage := 1, pageSize := 10
    searchTerm := "", selectedCategory := "", sortField := "id", sortAscending := true }

theorem jsOr0_eq (q : ℚ) : jsOr0 q = q := by
  by_cases h : q = 0 <;> simp [jsOr0, h]

theorem updateFirst_of_forall_not {p : α → Bool} {f : α → α} :
    ∀ {l : List α}, (∀ a ∈ l, p a = false) → updateFirst p f l = l
  | [], _ => rfl
  | a :: t, h => by
    have ha := h a (by simp)
    simp only [updateFirst, ha, Bool.false_eq_true, if_false]
    have ht := updateFirst_of_forall_not (f := f) (fun b hb => h b (List.mem_cons_of_mem a hb))
    rw [ht]

theorem updateFirst_eq_set {p : α → Bool} {f : α → α} :
    ∀ {l : List α}, l.any p = true →
      ∃ i a, l[i]? = some a ∧ p a = true ∧
        (∀ j, j < i → ∀ b, l[j]? = some b → p b = false) ∧
        updateFirst p f l = l.set i (f a)
  | a :: t, h => by
    by_cases ha : p a
    · exact ⟨0, a, by simp, ha, by omega, by simp [updateFirst, ha]⟩
    · have ht : t.any p = true := by
        simp only [List.any_cons, ha, Bool.false_or] at h
        exact h
      obtain ⟨i, b, hb, hpb, hfirst, heq⟩ := updateFirst_eq_set (f := f) ht
      refine ⟨i + 1, b, by simpa using hb, hpb, ?_, ?_⟩
      · intro j hj c hc
        cases j with
        | zero => simp at hc; simpa [← hc] using ha
        | succ j2 =>
          exact hfirst j2 (by omega) c (by simpa using hc)
      · simp [updateFirst, ha, heq]

theorem map_updateFirst {p : α → Bool} {f : α → α} {g : α → β}
    (h : ∀ a, g (f a) = g a) : ∀ (l : List α), (updateFirst p f l).map g = l.map g
  | [] => rfl
  | a :: t => by
    by_cases ha : p a
    · simp [updateFirst, ha, h a]
    · simp [updateFirst, ha, map_updateFirst h t]

theorem find?_updateFirst {p : α → Bool} {f : α → α}
    (h : ∀ a, p (f a) = p a) : ∀ (l : List α), (updateFirst p f l).find? p = (l.find? p).map f
  | [] => rfl
  | a :: t => by
    by_cases ha : p a
    · simp [updateFirst, ha, List.find?_cons, h a]
    · simp [updateFirst, ha, List.find?_cons, find?_updateFirst h t]

theorem length_removeFirst_of_any {p : α → Bool} :
    ∀ {l : List α}, l.any p = true → (removeFirst p l).length + 1 = l.length
  | a :: t, h => by
    by_cases ha : p a
    · simp [removeFirst, ha]
    · have ht : t.any p = true := by
        simp only [List.any_cons, ha, Bool.false_or] at h
        exact h
      simp [removeFirst, ha, length_removeFirst_of_any ht]

theorem mapOrThrow_ok_mem {f : α → Except ε β} :
    ∀ {xs : List α} {l : List β}, mapOrThrow f xs = .ok l → ∀ b ∈ l, ∃ a ∈ xs, f a = .ok b := by
  intro xs
  induction xs with
  | nil => intro l h b hb; simp [mapOrThrow] at h; subst h; simp at hb
  | cons x t ih =>
    intro l h b hb
    simp only [mapOrThrow] at h
    cases hx : f x with
    | error e => rw [hx] at h; cases h
    | ok y =>
      rw [hx] at h
      cases ht : mapOrThrow f t with
      | error e => rw [ht] at h; cases h
      | ok ys =>
        rw [ht] at h
        cases h
        rcases List.mem_cons.mp hb with h1 | h2
        · exact ⟨x, by simp, by rw [hx, h1]⟩
        · obtain ⟨a, ha, hfa⟩ := ih ht b h2
          exact ⟨a, List.mem_cons_of_mem x ha, hfa⟩

theorem mapOrThrow_error_of_exists {f : α → Except ε β} :
    ∀ {xs : List α}, (∃ a ∈ xs, ∃ e, f a = .error e) →
      ∃ e2, mapOrThrow f xs = .error e2 := by
  intro xs
  induction xs with
  | nil => rintro ⟨a, ha, -⟩; simp at ha
  | cons x t ih =>
    rintro ⟨a, ha, e, hfa⟩
    simp only [mapOrThrow]
    cases hx : f x with
    | error e3 => exact ⟨e3, rfl⟩
    | ok y =>
      have hat : a ∈ t := by
        rcases List.mem_cons.mp ha with h1 | h2
        · subst h1; rw [hx] at hfa; cases hfa
        · exact h2
      obtain ⟨e2, h2⟩ := ih ⟨a, hat, e, hfa⟩
      rw [h2]
      exact ⟨e2, rfl⟩

theorem mapOrThrow_ok_of_forall {f : α → Except ε β} :
    ∀ {xs : List α}, (∀ a ∈ xs, ∃ b, f a = .ok b) →
      ∃ l, mapOrThrow f xs = .ok l ∧ l.length = xs.length := by
  intro xs
  induction xs with
  | nil => intro _; exact ⟨[], rfl, rfl⟩
  | cons x t ih =>
    intro h
    obtain ⟨y, hy⟩ := h x (by simp)
    obtain ⟨ys, hys, hlen⟩ := ih (fun a ha => h a (List.mem_cons_of_mem x ha))
    exact ⟨y :: ys, by simp [mapOrThrow, hy, hys], by simp [hlen]⟩

theorem le_foldl_max [LinearOrder α] : ∀ (t : List α) (h : α), h ≤ t.foldl max h
  | [], _ => le_refl _
  | a :: t, h => le_trans (le_max_left h a) (le_foldl_max t (max h a))

theorem mem_le_foldl_max [LinearOrder α] :
    ∀ (t : List α) (h x : α), x ∈ t → x ≤ t.foldl max h
  | a :: t, h, x, hx => by
    rcases List.mem_cons.mp hx with h1 | h2
    · subst h1
      exact le_trans (le_max_right h x) (le_foldl_max t (max h x))
    · exact mem_le_foldl_max t (max h a) x h2

theorem foldl_max_mem [LinearOrder α] :
    ∀ (t : List α) (h : α), t.foldl max h = h ∨ t.foldl max h ∈ t
  | [], h => Or.inl rfl
  | a :: t, h => by
    rcases foldl_max_mem t (max h a) with h1 | h2
    · rcases max_cases h a with ⟨hm, -⟩ | ⟨hm, -⟩
      · exact Or.inl (by simp only [List.foldl_cons]; rw [h1, hm])
      · right
        simp only [List.foldl_cons]
        rw [h1, hm]
        simp
    · exact Or.inr (by simp only [List.foldl_cons]; exact List.mem_cons_of_mem a h2)

theorem foldl_min_le_mem [LinearOrder α] :
    ∀ (t : List α) (h x : α), x ∈ t → t.foldl min h ≤ x
  | a :: t, h, x, hx => by
    rcases List.mem_cons.mp hx with h1 | h2
    · subst h1
      have h0 : ∀ (t2 : List α) (h2 : α), t2.foldl min h2 ≤ h2 := by
        intro t2
        induction t2 with
        | nil => intro h2; exact le_refl _
        | cons b t3 ih => intro h2; exact le_trans (ih (min h2 b)) (min_le_left h2 b)
      exact le_trans (h0 t (min h x)) (min_le_right h x)
    · exact foldl_min_le_mem t (min h a) x h2

theorem foldl_min_le_seed [LinearOrder α] : ∀ (t : List α) (h : α), t.foldl min h ≤ h
  | [], _ => le_refl _
  | a :: t, h => le_trans (foldl_min_le_seed t (min h a)) (min_le_left h a)

theorem foldl_min_mem [LinearOrder α] :
    ∀ (t : List α) (h : α), t.foldl min h = h ∨ t.foldl min h ∈ t
  | [], h => Or.inl rfl
  | a :: t, h => by
    rcases foldl_min_mem t (min h a) with h1 | h2
    · rcases min_cases h a with ⟨hm, -⟩ | ⟨hm, -⟩
      · exact Or.inl (by simp only [List.foldl_cons]; rw [h1, hm])
      · right
        simp only [List.foldl_cons]
        rw [h1, hm]
        simp
    · exact Or.inr (by simp only [List.foldl_cons]; exact List.mem_cons_of_mem a h2)

theorem foldl_add_map (g : α → ℚ) :
    ∀ (l : List α) (a : ℚ), l.foldl (fun s p => s + g p) a = a + (l.map g).sum
  | [], a => by simp
  | x :: t, a => by
    simp only [List.foldl_cons, List.map_cons, List.sum_cons]
    rw [foldl_add_map g t (a + g x)]
    ring

theorem totalPagesCode_prev (s : AppState) : totalPagesCode (prevPage s) = totalPagesCode s := by
  unfold prevPage
  split <;> rfl

theorem totalPagesCode_next (s : AppState) : totalPagesCode (nextPage s) = totalPagesCode s := by
  unfold nextPage
  split <;> rfl

theorem page_step_bounds (s : AppState) (op : Bool)
    (h1 : 1 ≤ s.currentPage) (h2 : s.currentPage ≤ totalPagesMin1 s) :
    1 ≤ (if op then nextPage s else prevPage s).currentPage
      ∧ (if op then nextPage s else prevPage s).currentPage ≤ totalPagesMin1 s := by
  cases op
  · simp only [Bool.false_eq_true, if_false]
    unfold prevPage
    split
    · rename_i hgt
      dsimp only
      omega
    · exact ⟨h1, h2⟩
  · simp only [if_true]
    unfold nextPage
    split
    · rename_i hlt
      dsimp only
      unfold totalPagesMin1 at *
      omega
    · exact ⟨h1, h2⟩

theorem applyPageOps_bounds : ∀ (ops : List Bool) (s : AppState),
    1 ≤ s.currentPage → s.currentPage ≤ totalPagesMin1 s →
    1 ≤ (applyPageOps ops s).currentPage
      ∧ (applyPageOps ops s).currentPage ≤ totalPagesMin1 (applyPageOps ops s)
  | [], s, h1, h2 => ⟨h1, h2⟩
  | op :: t, s, h1, h2 => by
    have hstep := page_step_bounds s op h1 h2
    have htp2 : totalPagesMin1 (if op then nextPage s else prevPage s) = totalPagesMin1 s := by
      cases op
      · simp only [Bool.false_eq_true, if_false, totalPagesMin1, totalPagesCode_prev]
      · simp only [if_true, totalPagesMin1, totalPagesCode_next]
    exact applyPageOps_bounds t _ hstep.1 (by rw [htp2]; exact hstep.2)

/-- C7: under every sequence of `prevPage`/`nextPage` calls the current
page stays within `[1, totalPages]` (page count floored at 1), calls past
either boundary are no-ops, and with page size 10 and 25 filtered
products five `nextPage` calls from page 1 end clamped at page 3. -/
theorem pagination_spec :
    (∀ (s : AppState) (ops : List Bool),
        1 ≤ s.currentPage → s.currentPage ≤ totalPagesMin1 s →
        1 ≤ (applyPageOps ops s).currentPage
          ∧ (applyPageOps ops s).currentPage ≤ totalPagesMin1 (applyPageOps ops s))
    ∧ (∀ s : AppState, s.currentPage ≤ 1 → prevPage s = s)
    ∧ (∀ s : AppState, totalPagesCode s ≤ s.currentPage → nextPage s = s)
    ∧ totalPagesCode demoPageState = 3
    ∧ (applyPageOps [true, true, true, true, true] demoPageState).currentPage = 3 := by
  refine ⟨fun s ops => applyPageOps_bounds ops s, ?_, ?_, by decide, by decide⟩
  · intro s h
    unfold prevPage
    split
    · omega
    · rfl
  · intro s h
    unfold nextPage
    split
    · omega
    · rfl

theorem pagination_spec_witness :
    1 ≤ (applyPageOps [true, true, true, true, true] demoPageState).currentPage
      ∧ (applyPageOps [true, true, true, true, true] demoPageState).currentPage
          ≤ totalPagesMin1 (applyPageOps [true, true, true, true, true] demoPageState) :=
  pagination_spec.1 demoPageState [true, true, true, true, true] (by decide) (by decide)

theorem le_maxParsedId (l : List Product) (p : Product) (hp : p ∈ l) :
    parsedIdOr0 p ≤ maxParsedId l := by
  have hmem : parsedIdOr0 p ∈ l.map parsedIdOr0 := List.mem_map_of_mem _ hp
  rcases hml : l.map parsedIdOr0 with - | ⟨h, t⟩
  · rw [hml] at hmem
    simp at hmem
  · rw [hml] at hmem
    have hm : maxParsedId l = t.foldl max h := by
      unfold maxParsedId
      rw [hml]
    rw [hm]
    rcases List.mem_cons.mp hmem with h1 | h2
    · rw [h1]
      exact le_foldl_max t h
    · exact mem_le_foldl_max t h _ h2

/-- C4: `getNextProductId` returns `"1"` on the empty list and otherwise
the string of one plus the maximum parsed id (non-numeric ids parsing to
0), a value strictly above every parsed id; ids `"9"` and `"abc"`
yield `"10"`. -/
theorem nextProductId_spec :
    getNextProductId [] = "1"
    ∧ (∀ l : List Product, l ≠ [] →
        getNextProductId l = toString (maxParsedId l + 1)
        ∧ ∀ p ∈ l, parsedIdOr0 p < maxParsedId l + 1)
    ∧ getNextProductId [mkIdP (JsId.str "9"), mkIdP (JsId.str "abc")] = "10" := by
  refine ⟨rfl, ?_, by decide⟩
  intro l hl
  constructor
  · unfold getNextProductId
    rw [if_neg (by simpa using hl)]
  · intro p hp
    have := le_maxParsedId l p hp
    omega

theorem nextProductId_spec_witness :
    getNextProductId [mkIdP (JsId.str "9"), mkIdP (JsId.str "abc")]
        = toString (maxParsedId [mkIdP (JsId.str "9"), mkIdP (JsId.str "abc")] + 1)
      ∧ ∀ p ∈ [mkIdP (JsId.str "9"), mkIdP (JsId.str "abc")],
          parsedIdOr0 p < maxParsedId [mkIdP (JsId.str "9"), mkIdP (JsId.str "abc")] + 1 :=
  nextProductId_spec.2.1 _ (by simp)

theorem markDeleted_id (now : String) (a : Product) : (markDeleted now a).id = a.id := rfl

theorem any_updateFirst {p : α → Bool} {f : α → α}
    (h : ∀ a, p (f a) = p a) : ∀ (l : List α), (updateFirst p f l).any p = l.any p
  | [] => rfl
  | a :: t => by
    by_cases ha : p a
    · simp [updateFirst, ha, h a]
    · simp [updateFirst, ha, h a, any_updateFirst h t]

theorem find?_eq_some_of_first {p : α → Bool} : ∀ {l : List α} {i : Nat} {a : α},
    l[i]? = some a → p a = true →
    (∀ j, j < i → ∀ b, l[j]? = some b → p b = false) →
    l.find? p = some a := by
  intro l
  induction l with
  | nil => intro i a h; simp at h
  | cons x t ih =>
    intro i a ha hpa hfirst
    cases i with
    | zero =>
      simp only [List.getElem?_cons_zero, Option.some.injEq] at ha
      subst ha
      exact List.find?_cons_of_pos _ hpa
    | succ i2 =>
      have hx : p x = false := hfirst 0 (by omega) x (by simp)
      rw [List.find?_cons_of_neg _ (by simp [hx])]
      exact ih (by simpa using ha) hpa
        (fun j hj b hb => hfirst (j + 1) (by omega) b (by simpa using hb))

theorem any_removeFirst_append_pair {q : α → Bool} (c : α) (hc : q c = true) :
    ∀ (xs : List α), (removeFirst q (xs ++ [c, c])).any q = true
  | [] => by simp [removeFirst, hc]
  | x :: t => by
    by_cases hx : q x
    · simp [removeFirst, hx, List.any_append, hc]
    · simp [removeFirst, hx, any_removeFirst_append_pair c hc t]

theorem any_idMatches_of_exists {s : List Product} {pid : JsId}
    (h : ∃ p ∈ s, p.id = pid) : s.any (idMatches pid) = true := by
  rcases h with ⟨p, hp, hid⟩
  exact List.any_eq_true.mpr ⟨p, hp, by simp [idMatches, hid]⟩

theorem find?_of_any {l : List α} {p : α → Bool} (h : l.any p = true) :
    ∃ a, l.find? p = some a ∧ p a = true := by
  induction l with
  | nil => simp at h
  | cons x t ih =>
    by_cases hx : p x
    · exact ⟨x, by simp [List.find?_cons, hx], hx⟩
    · simp only [List.any_cons, Bool.or_eq_true] at h
      rcases h with h1 | h2
      · exact absurd h1 hx
      · obtain ⟨a, ha, hpa⟩ := ih h2
        refine ⟨a, ?_, hpa⟩
        rw [List.find?_cons_of_neg _ hx]
        exact ha

theorem deleteComment_count (s : AppState) (pid : JsId) (cid now2 : String)
    (p : Product) (cs : List Comment)
    (hfind : s.products.find? (idMatches pid) = some p)
    (hcs : p.comments = some cs)
    (hin : cs.any (fun c => decide (c.id = cid)) = true) :
    commentCountAt (deleteComment now2 pid cid s) pid
      = if s.filteredProducts.any (idMatches pid)
            && (removeFirst (fun c => decide (c.id = cid)) cs).any
                (fun c => decide (c.id = cid)) then
          (removeFirst (fun c => decide (c.id = cid))
            (removeFirst (fun c => decide (c.id = cid)) cs)).length
        else (removeFirst (fun c => decide (c.id = cid)) cs).length := by
  have hdelp : (deleteComment now2 pid cid s).products
      = updateFirst (idMatches pid)
          (fun q => { q with
            comments := some (if s.filteredProducts.any (idMatches pid)
                  && (removeFirst (fun c => decide (c.id = cid)) cs).any
                      (fun c => decide (c.id = cid)) then
                removeFirst (fun c => decide (c.id = cid))
                  (removeFirst (fun c => decide (c.id = cid)) cs)
              else removeFirst (fun c => decide (c.id = cid)) cs),
            updatedAt := now2 }) s.products := by
    unfold deleteComment
    rw [hfind]
    dsimp only
    rw [hcs]
    dsimp only
    rw [hin]
    rfl
  unfold commentCountAt
  rw [hdelp,
    find?_updateFirst (p := idMatches pid)
      (f := fun q => { q with
        comments := some (if s.filteredProducts.any (idMatches pid)
              && (removeFirst (fun c => decide (c.id = cid)) cs).any
                  (fun c => decide (c.id = cid)) then
            removeFirst (fun c => decide (c.id = cid))
              (removeFirst (fun c => decide (c.id = cid)) cs)
          else removeFirst (fun c => decide (c.id = cid)) cs),
        updatedAt := now2 })
      (fun a => rfl) s.products,
    hfind]
  simp only [Option.map_some', Option.getD_some]
  exact apply_ite List.length _ _ _

/-- C1 counterexample: with product 1 (one existing comment `c1`)
present in both the canonical list and the filtered view — the app's
default state, where the filtered view shares the product objects —
`addComment` grows the comment sequence from 1 to 3, not from 1 to 2:
the push through the aliased filtered-view reference appends the same
comment a second time. -/
theorem addComment_twice_counterexample :
    commentCountAt demoCommentState (JsId.num 1) = 1
    ∧ commentCountAt (addComment "t" (JsId.num 1) "hi" "bob" demoCommentState) (JsId.num 1) = 3
    ∧ (3 : Nat) ≠ 1 + 1 :=
  ⟨rfl, rfl, by decide⟩

/-- C1 (amended): when no product matches, `addComment` leaves the state
unchanged; when a product with the given id exists, the first matching
product gets `updatedAt := now` and the comment
`(id, content, author, createdAt := now)` appended at the end — once
when the id does not occur in the filtered view, and twice over (the
same comment, through the aliased filtered-view reference) when it
does; the comment sequence thus grows by exactly one or exactly two,
respectively. -/
theorem addComment_spec (s : AppState) (pid : JsId) (content author now : String) :
    ((∀ p ∈ s.products, p.id ≠ pid) → addComment now pid content author s = s)
    ∧ ((∃ p ∈ s.products, p.id = pid) →
        commentCountAt (addComment now pid content author s) pid
          = commentCountAt s pid
            + (if s.filteredProducts.any (idMatches pid) then 2 else 1)
        ∧ ∃ i p, s.products[i]? = some p ∧ p.id = pid
            ∧ (∀ j, j < i → ∀ q, s.products[j]? = some q → q.id ≠ pid)
            ∧ (addComment now pid content author s).products
                = s.products.set i
                    { p with
                      comments := some (p.comments.getD [] ++
                        (if s.filteredProducts.any (idMatches pid) then
                          [{ id := getNextCommentId s.products pid, content := content,
                             author := author, createdAt := now },
                           { id := getNextCommentId s.products pid, content := content,
                             author := author, createdAt := now }]
                         else
                          [{ id := getNextCommentId s.products pid, content := content,
                             author := author, createdAt := now }])),
                      updatedAt := now }) := by
  constructor
  · intro h
    have hnone : s.products.find? (idMatches pid) = none :=
      List.find?_eq_none.mpr (fun p hp => by simp [idMatches]; exact h p hp)
    unfold addComment
    rw [hnone]
  · intro h
    have hany : s.products.any (idMatches pid) = true := any_idMatches_of_exists h
    obtain ⟨p0, hfind, hp0⟩ := find?_of_any hany
    set cN : Comment :=
      { id := getNextCommentId s.products pid, content := content,
        author := author, createdAt := now } with hcN
    have haddp : (addComment now pid content author s).products
        = updateFirst (idMatches pid)
            (fun q => { q with
              comments := some (p0.comments.getD [] ++
                (if s.filteredProducts.any (idMatches pid) then [cN, cN] else [cN])),
              updatedAt := now }) s.products := by
      unfold addComment
      rw [hfind]
    constructor
    · unfold commentCountAt
      rw [haddp,
        find?_updateFirst (p := idMatches pid)
          (f := fun q => { q with
            comments := some (p0.comments.getD [] ++
              (if s.filteredProducts.any (idMatches pid) then [cN, cN] else [cN])),
            updatedAt := now })
          (fun a => rfl) s.products,
        hfind]
      simp only [Option.map_some', Option.getD_some]
      rcases Bool.eq_false_or_eq_true (s.filteredProducts.any (idMatches pid)) with hd | hd <;>
        simp [hd]
    · obtain ⟨i, a, ha, hpa, hfirst, heq⟩ :=
        updateFirst_eq_set
          (f := fun q => { q with
            comments := some (p0.comments.getD [] ++
              (if s.filteredProducts.any (idMatches pid) then [cN, cN] else [cN])),
            updatedAt := now }) hany
      have haeq : a = p0 := by
        have hfa := find?_eq_some_of_first ha hpa hfirst
        rw [hfind] at hfa
        injection hfa with h2
        exact h2.symm
      subst haeq
      refine ⟨i, a, ha, of_decide_eq_true hpa,
        fun j hj q hq => of_decide_eq_false (hfirst j hj q hq), ?_⟩
      rw [haddp, heq]

theorem addComment_spec_witness :
    commentCountAt (addComment "t" (JsId.num 1) "hi" "bob" demoCommentState) (JsId.num 1)
      = commentCountAt demoCommentState (JsId.num 1)
        + (if demoCommentState.filteredProducts.any (idMatches (JsId.num 1)) then 2 else 1) :=
  ((addComment_spec demoCommentState (JsId.num 1) "hi" "bob" "t").2
    ⟨demoProd, by simp [demoCommentState], rfl⟩).1

/-- C5: `addComment` followed by `deleteComment` of the very comment id
that `addComment` generated restores the length of the product's comment
sequence: when the product is filtered out the pair is +1 then -1, and when
it is visible in the filtered view the aliased push doubles the comment
(+2) but `deleteComment`'s second (filtered-view) splice then removes
the remaining occurrence as well (-2). -/
theorem comment_roundtrip (s : AppState) (pid : JsId) (content author now now2 : String)
    (h : ∃ p ∈ s.products, p.id = pid) :
    commentCountAt
        (deleteComment now2 pid (getNextCommentId s.products pid)
          (addComment now pid content author s)) pid
      = commentCountAt s pid := by
  have hany : s.products.any (idMatches pid) = true := any_idMatches_of_exists h
  obtain ⟨p0, hfind, hp0⟩ := find?_of_any hany
  set cid := getNextCommentId s.products pid with hcid
  set cN : Comment :=
    { id := cid, content := content, author := author, createdAt := now } with hcN
  have hcid2 : decide (cN.id = cid) = true := by simp [hcN]
  have hcount : commentCountAt s pid = (p0.comments.getD []).length := by
    unfold commentCountAt
    rw [hfind]
  rcases Bool.eq_false_or_eq_true (s.filteredProducts.any (idMatches pid)) with hd | hd
  · have haddp : (addComment now pid content author s).products
        = updateFirst (idMatches pid)
            (fun q => { q with
              comments := some (p0.comments.getD [] ++ [cN, cN]), updatedAt := now })
            s.products := by
      unfold addComment
      rw [hfind, hd]
      rfl
    have hfiltp : (addComment now pid content author s).filteredProducts
        = updateFirst (idMatches pid)
            (fun q => { q with
              comments := some (p0.comments.getD [] ++ [cN, cN]), updatedAt := now })
            s.filteredProducts := by
      unfold addComment
      rw [hfind, hd]
      rfl
    have hfind1 : (addComment now pid content author s).products.find? (idMatches pid)
        = some { p0 with
            comments := some (p0.comments.getD [] ++ [cN, cN]), updatedAt := now } := by
      rw [haddp,
        find?_updateFirst (p := idMatches pid)
          (f := fun q => { q with
            comments := some (p0.comments.getD [] ++ [cN, cN]), updatedAt := now })
          (fun a => rfl) s.products,
        hfind]
      rfl
    have hanyfilt : (addComment now pid content author s).filteredProducts.any (idMatches pid)
        = true := by
      rw [hfiltp,
        any_updateFirst (p := idMatches pid)
          (f := fun q => { q with
            comments := some (p0.comments.getD [] ++ [cN, cN]), updatedAt := now })
          (fun a => rfl) s.filteredProducts]
      exact hd
    have hLany : (p0.comments.getD [] ++ [cN, cN]).any (fun c => decide (c.id = cid)) = true := by
      simp [List.any_append, hcid2]
    have honce : (removeFirst (fun c => decide (c.id = cid))
        (p0.comments.getD [] ++ [cN, cN])).any (fun c => decide (c.id = cid)) = true :=
      any_removeFirst_append_pair (q := fun c => decide (c.id = cid)) cN hcid2
        (p0.comments.getD [])
    have hmain := deleteComment_count (addComment now pid content author s) pid cid now2
      _ _ hfind1 rfl hLany
    rw [hmain, hanyfilt, hcount]
    simp only [honce, Bool.true_and, if_true]
    have hlen1 := length_removeFirst_of_any hLany
    have hlen2 := length_removeFirst_of_any honce
    simp only [List.length_append, List.length_cons, List.length_nil] at hlen1 hlen2
    omega
  · have haddp : (addComment now pid content author s).products
        = updateFirst (idMatches pid)
            (fun q => { q with
              comments := some (p0.comments.getD [] ++ [cN]), updatedAt := now })
            s.products := by
      unfold addComment
      rw [hfind, hd]
      rfl
    have hfiltp : (addComment now pid content author s).filteredProducts
        = updateFirst (idMatches pid)
            (fun q => { q with
              comments := some (p0.comments.getD [] ++ [cN]), updatedAt := now })
            s.filteredProducts := by
      unfold addComment
      rw [hfind, hd]
      rfl
    have hfind1 : (addComment now pid content author s).products.find? (idMatches pid)
        = some { p0 with comments := some (p0.comments.getD [] ++ [cN]), updatedAt := now } := by
      rw [haddp,
        find?_updateFirst (p := idMatches pid)
          (f := fun q => { q with
            comments := some (p0.comments.getD [] ++ [cN]), updatedAt := now })
          (fun a => rfl) s.products,
        hfind]
      rfl
    have hanyfilt : (addComment now pid content author s).filteredProducts.any (idMatches pid)
        = false := by
      rw [hfiltp,
        any_updateFirst (p := idMatches pid)
          (f := fun q => { q with
            comments := some (p0.comments.getD [] ++ [cN]), updatedAt := now })
          (fun a => rfl) s.filteredProducts]
      exact hd
    have hLany : (p0.comments.getD [] ++ [cN]).any (fun c => decide (c.id = cid)) = true := by
      simp [List.any_append, hcid2]
    have hmain := deleteComment_count (addComment now pid content author s) pid cid now2
      _ _ hfind1 rfl hLany
    rw [hmain, hanyfilt, hcount]
    simp only [Bool.false_and, Bool.false_eq_true, if_false]
    have hlen1 := length_removeFirst_of_any hLany
    simp only [List.length_append, List.length_cons, List.length_nil] at hlen1
    omega

theorem comment_roundtrip_witness :
    commentCountAt
        (deleteComment "t2" (JsId.num 1)
          (getNextCommentId demoCommentState.products (JsId.num 1))
          (addComment "t" (JsId.num 1) "hi" "bob" demoCommentState)) (JsId.num 1)
      = commentCountAt demoCommentState (JsId.num 1) :=
  comment_roundtrip demoCommentState (JsId.num 1) "hi" "bob" "t" "t2"
    ⟨demoProd, by simp [demoCommentState], rfl⟩

/-- C10: `softDeleteProduct` on an existing id changes only the first
matching product's `isDeleted` (to `true`) and `updatedAt` fields, in
the canonical list and, when the id occurs there, in the filtered view;
every other product, both lists' order and per-position ids, and the
search/category/sort/pagination criteria are unchanged. -/
theorem softDelete_frame (s : AppState) (pid : JsId) (now : String)
    (h : ∃ p ∈ s.products, p.id = pid) :
    ((softDeleteProduct now pid s).searchTerm = s.searchTerm
      ∧ (softDeleteProduct now pid s).selectedCategory = s.selectedCategory
      ∧ (softDeleteProduct now pid s).sortField = s.sortField
      ∧ (softDeleteProduct now pid s).sortAscending = s.sortAscending
      ∧ (softDeleteProduct now pid s).currentPage = s.currentPage
      ∧ (softDeleteProduct now pid s).pageSize = s.pageSize)
    ∧ (softDeleteProduct now pid s).products.map Product.id = s.products.map Product.id
    ∧ (softDeleteProduct now pid s).filteredProducts.map Product.id
        = s.filteredProducts.map Product.id
    ∧ (∃ i p, s.products[i]? = some p ∧ p.id = pid
        ∧ (∀ j, j < i → ∀ q, s.products[j]? = some q → q.id ≠ pid)
        ∧ (softDeleteProduct now pid s).products
            = s.products.set i { p with isDeleted := some true, updatedAt := now })
    ∧ (((∀ q ∈ s.filteredProducts, q.id ≠ pid)
          ∧ (softDeleteProduct now pid s).filteredProducts = s.filteredProducts)
        ∨ (∃ j q, s.filteredProducts[j]? = some q ∧ q.id = pid
            ∧ (∀ k, k < j → ∀ r, s.filteredProducts[k]? = some r → r.id ≠ pid)
            ∧ (softDeleteProduct now pid s).filteredProducts
                = s.filteredProducts.set j { q with isDeleted := some true, updatedAt := now })) := by
  have hany : s.products.any (idMatches pid) = true := any_idMatches_of_exists h
  have hsd : softDeleteProduct now pid s
      = { s with
          products := updateFirst (idMatches pid) (markDeleted now) s.products
          filteredProducts := updateFirst (idMatches pid) (markDeleted now) s.filteredProducts } := by
    unfold softDeleteProduct
    rw [hany]
    rfl
  rw [hsd]
  refine ⟨⟨rfl, rfl, rfl, rfl, rfl, rfl⟩, ?_, ?_, ?_, ?_⟩
  · show (updateFirst (idMatches pid) (markDeleted now) s.products).map Product.id
        = s.products.map Product.id
    exact map_updateFirst (p := idMatches pid) (f := markDeleted now) (g := Product.id)
      (fun a => rfl) s.products
  · show (updateFirst (idMatches pid) (markDeleted now) s.filteredProducts).map Product.id
        = s.filteredProducts.map Product.id
    exact map_updateFirst (p := idMatches pid) (f := markDeleted now) (g := Product.id)
      (fun a => rfl) s.filteredProducts
  · obtain ⟨i, a, ha, hpa, hfirst, heq⟩ := updateFirst_eq_set (f := markDeleted now) hany
    refine ⟨i, a, ha, of_decide_eq_true hpa,
      fun j hj q hq => of_decide_eq_false (hfirst j hj q hq), ?_⟩
    show updateFirst (idMatches pid) (markDeleted now) s.products = _
    rw [heq]
    rfl
  · by_cases hf : s.filteredProducts.any (idMatches pid) = true
    · right
      obtain ⟨j, b, hb, hpb, hfirstb, heqb⟩ := updateFirst_eq_set (f := markDeleted now) hf
      refine ⟨j, b, hb, of_decide_eq_true hpb,
        fun k hk r hr => of_decide_eq_false (hfirstb k hk r hr), ?_⟩
      show updateFirst (idMatches pid) (markDeleted now) s.filteredProducts = _
      rw [heqb]
      rfl
    · left
      have hf2 : s.filteredProducts.any (idMatches pid) = false := by
        simpa using hf
      have hall := List.any_eq_false.mp hf2
      constructor
      · intro q hq
        have := hall q hq
        simpa [idMatches] using this
      · show updateFirst (idMatches pid) (markDeleted now) s.filteredProducts = _
        exact updateFirst_of_forall_not
          (fun a ha2 => by simpa using hall a ha2)

theorem softDelete_frame_witness :
    (softDeleteProduct "t" (JsId.num 1) demoCommentState).searchTerm
        = demoCommentState.searchTerm
      ∧ (softDeleteProduct "t" (JsId.num 1) demoCommentState).selectedCategory
          = demoCommentState.selectedCategory
      ∧ (softDeleteProduct "t" (JsId.num 1) demoCommentState).sortField
          = demoCommentState.sortField
      ∧ (softDeleteProduct "t" (JsId.num 1) demoCommentState).sortAscending
          = demoCommentState.sortAscending
      ∧ (softDeleteProduct "t" (JsId.num 1) demoCommentState).currentPage
          = demoCommentState.currentPage
      ∧ (softDeleteProduct "t" (JsId.num 1) demoCommentState).pageSize
          = demoCommentState.pageSize :=
  (softDelete_frame demoCommentState (JsId.num 1) "t"
    ⟨demoProd, by simp [demoCommentState], rfl⟩).1

/-- C2 counterexample: normalizing `[\x7b\x7d]` yields one record whose
`comments` and `isDeleted` properties are absent (`none`), so records
out of `jsonToObject` do not carry a comment sequence or a boolean
deletion flag. -/
theorem normalized_fields_counterexample :
    (jsonToObject emptyObjStr).map Product.comments = [(none : Option (List Comment))]
    ∧ (jsonToObject emptyObjStr).map Product.isDeleted = [(none : Option Bool)]
    ∧ (jsonToObject emptyObjStr).length = 1 :=
  ⟨rfl, rfl, rfl⟩

/-- C2 (amended): every record produced by `jsonToObject` has NO
`comments` sequence and no `isDeleted` boolean at all — both properties
are absent (`none`) until a later mutation creates them. -/
theorem normalized_fields_spec (s : String) :
    ∀ r ∈ jsonToObject s, r.comments = none ∧ r.isDeleted = none := by
  intro r hr
  unfold jsonToObject at hr
  cases hpj : parseJson s with
  | none =>
    rw [hpj] at hr
    simp at hr
  | some v =>
    rw [hpj] at hr
    cases v with
    | arr xs =>
      cases hm : mapOrThrow normalizeProduct xs with
      | error e =>
        simp only [hm] at hr
        simp at hr
      | ok l =>
        simp only [hm] at hr
        obtain ⟨a, _, hfa⟩ := mapOrThrow_ok_mem hm r hr
        unfold normalizeProduct at hfa
        split at hfa
        · cases hfa
        · injection hfa with h2
          subst h2
          exact ⟨rfl, rfl⟩
    | undefined => simp at hr
    | null => simp at hr
    | bool b => simp at hr
    | num q => simp at hr
    | str t => simp at hr
    | obj fields => simp at hr

theorem normalized_fields_spec_witness :
    emptyObjProduct.comments = none ∧ emptyObjProduct.isDeleted = none :=
  normalized_fields_spec emptyObjStr emptyObjProduct (by decide)

/-- C6 counterexample: `[null]` parses to a one-element array, yet
normalization returns the empty list — the `null` element does not yield
a defaulted record, it aborts the whole map. -/
theorem normalize_null_counterexample :
    parseJson nullArrStr = some (JsValue.arr [JsValue.null])
    ∧ jsonToObject nullArrStr = []
    ∧ (jsonToObject nullArrStr).length ≠ 1 :=
  ⟨rfl, rfl, by decide⟩

/-- C6 (amended): normalization is total and returns `[]` on parse
failure or a non-array top level; a parsed array all of whose elements
are non-nullish yields one complete record per element, but an array
containing `null` (or `undefined`) makes the caught `TypeError` collapse
the whole result to `[]`. -/
theorem normalize_total_spec :
    (∀ s : String, parseJson s = none → jsonToObject s = [])
    ∧ (∀ (s : String) (v : JsValue), parseJson s = some v →
        (∀ xs, v ≠ JsValue.arr xs) → jsonToObject s = [])
    ∧ (∀ (s : String) (xs : List JsValue), parseJson s = some (JsValue.arr xs) →
        ((∃ x ∈ xs, isNullish x = true) → jsonToObject s = [])
        ∧ ((∀ x ∈ xs, isNullish x = false) → (jsonToObject s).length = xs.length)) := by
  refine ⟨?_, ?_, ?_⟩
  · intro s h
    simp [jsonToObject, h]
  · intro s v h hne
    unfold jsonToObject
    rw [h]
    cases v with
    | arr xs => exact absurd rfl (hne xs)
    | undefined => rfl
    | null => rfl
    | bool b => rfl
    | num q => rfl
    | str t => rfl
    | obj fields => rfl
  · intro s xs h
    constructor
    · rintro ⟨x, hx, hnx⟩
      have herr : normalizeProduct x = Except.error () := by
        unfold normalizeProduct
        rw [if_pos hnx]
      obtain ⟨e2, hm⟩ := mapOrThrow_error_of_exists ⟨x, hx, (), herr⟩
      simp [jsonToObject, h, hm]
    · intro hall
      have hok : ∀ x ∈ xs, ∃ b, normalizeProduct x = Except.ok b := by
        intro x hx
        unfold normalizeProduct
        rw [if_neg (by simp [hall x hx])]
        exact ⟨_, rfl⟩
      obtain ⟨l, hm, hlen⟩ := mapOrThrow_ok_of_forall hok
      simp [jsonToObject, h, hm, hlen]

theorem normalize_total_spec_witness :
    jsonToObject nullArrStr = [] :=
  (normalize_total_spec.2.2 nullArrStr [JsValue.null] rfl).1
    ⟨JsValue.null, by simp, rfl⟩

/-- C8 counterexample: normalizing `[\x7b"price":-5\x7d]` produces the
price `-5`, a negative number — `Number(x) || 0` passes negative source
values through. -/
theorem price_nonneg_counterexample :
    (jsonToObject negPriceStr).map Product.price = [(-5 : ℚ)]
    ∧ ¬ (0 : ℚ) ≤ (-5 : ℚ) :=
  ⟨rfl, by norm_num⟩

/-- C8 (amended): the normalized price is `Number(source.price) || 0`:
it equals 0 whenever the source price is absent or non-coercible, but it
is not guaranteed non-negative — a negative numeric source passes
through unchanged. -/
theorem price_default_spec :
    (∀ (v : JsValue) (r : Product), normalizeProduct v = Except.ok r →
        (getProp v "price" = JsValue.undefined ∨ jsToNumber (getProp v "price") = none) →
        r.price = 0)
    ∧ (jsonToObject negPriceStr).map Product.price = [(-5 : ℚ)] := by
  constructor
  · intro v r hok hbad
    unfold normalizeProduct at hok
    split at hok
    · cases hok
    · injection hok with h2
      subst h2
      rcases hbad with hb | hb
      · show numOr0 (getProp v "price") = 0
        rw [hb]
        rfl
      · show numOr0 (getProp v "price") = 0
        unfold numOr0
        rw [hb]
        rfl
  · rfl

theorem price_default_spec_witness :
    emptyObjProduct.price = 0 :=
  price_default_spec.1 (JsValue.obj []) emptyObjProduct rfl (Or.inl rfl)

theorem calculateStatistics_eq (l : List Product) (hl : l ≠ []) :
    calculateStatistics l =
      { totalProducts := l.length
        totalCategories := (getUniqueCategories l).length
        averagePrice :=
          if (posPrices l).length ≠ 0 then
            (jsRound ((l.map Product.price).sum / ((posPrices l).length : ℚ) * 100) : ℚ) / 100
          else 0
        minPrice :=
          match posPrices l with
          | [] => 0
          | h :: t => t.foldl min h
        maxPrice :=
          match posPrices l with
          | [] => 0
          | h :: t => t.foldl max h
        totalValue := (l.map Product.price).sum } := by
  have hmap : l.map (fun p => jsOr0 p.price) = l.map Product.price :=
    List.map_congr_left (fun a _ => jsOr0_eq _)
  have hsum : l.foldl (fun sum p => sum + jsOr0 p.price) 0 = (l.map Product.price).sum := by
    rw [foldl_add_map (fun p => jsOr0 p.price) l 0, hmap]
    ring
  simp only [calculateStatistics, hmap, hsum, posPrices]
  rw [if_neg (by simpa using hl)]

theorem mkPriceP_price (q : ℚ) : (mkPriceP q).price = q := rfl

/-- C3 counterexample: on `[price -10, price 10, price 20]` the code's
`averagePrice` is 10 — `Math.round(totalPrice / prices.length * 100) / 100`
divides the sum of ALL prices by the count of strictly-positive ones —
whereas the average computed only over the strictly-positive prices is
15. -/
theorem statistics_avg_counterexample :
    (calculateStatistics [mkPriceP (-10), mkPriceP 10, mkPriceP 20]).averagePrice = 10
    ∧ specAveragePrice [mkPriceP (-10), mkPriceP 10, mkPriceP 20] = 15
    ∧ (10 : ℚ) ≠ 15 := by
  have hp : posPrices [mkPriceP (-10), mkPriceP 10, mkPriceP 20] = [10, 20] := by
    norm_num [posPrices, mkPriceP_price]
  have hs : (([mkPriceP (-10), mkPriceP 10, mkPriceP 20] : List Product).map Product.price).sum
      = 20 := by
    norm_num [mkPriceP_price]
  refine ⟨?_, ?_, by norm_num⟩
  · rw [calculateStatistics_eq _ (by simp)]
    dsimp only
    rw [hp, hs]
    norm_num [jsRound, Int.floor_eq_iff]
  · have hmap : ([mkPriceP (-10), mkPriceP 10, mkPriceP 20] : List Product).map
        (fun p => jsOr0 p.price) = [-10, 10, 20] := by
      norm_num [jsOr0_eq, mkPriceP_price]
    unfold specAveragePrice
    rw [hmap]
    norm_num [jsRound, Int.floor_eq_iff]

/-- C3 (amended): `calculateStatistics []` is the all-zero struct; on a
non-empty list `totalProducts` is the length, `totalValue` the sum of
all prices, `minPrice`/`maxPrice` the extrema of the strictly-positive
prices (0 when there are none, as is `averagePrice`), and `averagePrice`
is `totalValue` — the sum over ALL prices, zero and negative ones
included — divided by the number of strictly-positive prices, rounded
to 2 decimals; the spec's example `[0, 10, 20]` yields
`(3, 30, 15, 10, 20)` as claimed. -/
theorem statistics_spec :
    calculateStatistics []
        = { totalProducts := 0, totalCategories := 0, averagePrice := 0,
            minPrice := 0, maxPrice := 0, totalValue := 0 }
    ∧ (∀ l : List Product, l ≠ [] →
        (calculateStatistics l).totalProducts = l.length
        ∧ (calculateStatistics l).totalValue = (l.map Product.price).sum
        ∧ (posPrices l = [] →
            (calculateStatistics l).averagePrice = 0
            ∧ (calculateStatistics l).minPrice = 0
            ∧ (calculateStatistics l).maxPrice = 0)
        ∧ (posPrices l ≠ [] →
            (calculateStatistics l).averagePrice
              = (jsRound ((l.map Product.price).sum / ((posPrices l).length : ℚ) * 100) : ℚ) / 100
            ∧ (calculateStatistics l).minPrice ∈ posPrices l
            ∧ (∀ q ∈ posPrices l, (calculateStatistics l).minPrice ≤ q)
            ∧ (calculateStatistics l).maxPrice ∈ posPrices l
            ∧ (∀ q ∈ posPrices l, q ≤ (calculateStatistics l).maxPrice)))
    ∧ calculateStatistics [mkPriceP 0, mkPriceP 10, mkPriceP 20]
        = { totalProducts := 3, totalCategories := 0, averagePrice := 15,
            minPrice := 10, maxPrice := 20, totalValue := 30 } := by
  refine ⟨rfl, ?_, ?_⟩
  · intro l hl
    rw [calculateStatistics_eq l hl]
    refine ⟨rfl, rfl, ?_, ?_⟩
    · intro hpos
      rw [hpos]
      refine ⟨?_, rfl, rfl⟩
      dsimp only
      rw [if_neg (by simp)]
    · intro hpos
      cases hp : posPrices l with
      | nil => exact absurd hp hpos
      | cons h t =>
        refine ⟨?_, ?_, ?_, ?_, ?_⟩
        · dsimp only
          rw [if_pos (by simp)]
        · dsimp only
          rcases foldl_min_mem t h with h1 | h2
          · rw [h1]
            exact List.mem_cons_self h t
          · exact List.mem_cons_of_mem h h2
        · intro q hq
          dsimp only
          rcases List.mem_cons.mp hq with h1 | h2
          · rw [h1]
            exact foldl_min_le_seed t h
          · exact foldl_min_le_mem t h q h2
        · dsimp only
          rcases foldl_max_mem t h with h1 | h2
          · rw [h1]
            exact List.mem_cons_self h t
          · exact List.mem_cons_of_mem h h2
        · intro q hq
          dsimp only
          rcases List.mem_cons.mp hq with h1 | h2
          · rw [h1]
            exact le_foldl_max t h
          · exact mem_le_foldl_max t h q h2
  · have hp3 : posPrices [mkPriceP 0, mkPriceP 10, mkPriceP 20] = [10, 20] := by
      norm_num [posPrices, mkPriceP_price]
    have hs3 : (([mkPriceP 0, mkPriceP 10, mkPriceP 20] : List Product).map Product.price).sum
        = 30 := by
      norm_num [mkPriceP_price]
    have hc3 : getUniqueCategories [mkPriceP 0, mkPriceP 10, mkPriceP 20] = [] := by
      norm_num [getUniqueCategories, uniqueCatsAux, truthy, mkPriceP, defaultProduct,
        defaultCategory]
    rw [calculateStatistics_eq _ (by simp), hp3, hs3, hc3]
    simp only [Stats.mk.injEq]
    refine ⟨by norm_num, by norm_num, ?_, ?_, ?_, by norm_num⟩
    · rw [if_pos (by simp)]
      norm_num [jsRound, Int.floor_eq_iff]
    · show ([20] : List ℚ).foldl min 10 = 10
      norm_num [List.foldl, min_def]
    · show ([20] : List ℚ).foldl max 10 = 20
      norm_num [List.foldl, max_def]

theorem statistics_spec_witness :
    (calculateStatistics [mkPriceP 0, mkPriceP 10, mkPriceP 20]).totalProducts
        = ([mkPriceP 0, mkPriceP 10, mkPriceP 20] : List Product).length
      ∧ (calculateStatistics [mkPriceP 0, mkPriceP 10, mkPriceP 20]).totalValue
          = (([mkPriceP 0, mkPriceP 10, mkPriceP 20] : List Product).map Product.price).sum :=
  ⟨(statistics_spec.2.1 [mkPriceP 0, mkPriceP 10, mkPriceP 20] (by simp)).1,
   (statistics_spec.2.1 [mkPriceP 0, mkPriceP 10, mkPriceP 20] (by simp)).2.1⟩

theorem sortLe_price_desc (a b : Product) :
    sortLe "price" false a b = decide (b.price ≤ a.price) := by
  have hcmp : sortCmp "price" false a b
      = cmpDir false (decide (a.price < b.price)) (decide (b.price < a.price)) := rfl
  unfold sortLe
  rw [hcmp]
  unfold cmpDir
  rcases lt_trichotomy a.price b.price with hc | hc | hc
  · rw [if_pos (decide_eq_true hc)]
    simp [not_le.mpr hc]
  · rw [if_neg (by simp [hc]), if_neg (by simp [hc])]
    simp [le_of_eq hc.symm]
  · rw [if_neg (by simp [not_lt.mpr (le_of_lt hc)]), if_pos (decide_eq_true hc)]
    simp [le_of_lt hc]

theorem sortLe_price_asc (a b : Product) :
    sortLe "price" true a b = decide (a.price ≤ b.price) := by
  have hcmp : sortCmp "price" true a b
      = cmpDir true (decide (a.price < b.price)) (decide (b.price < a.price)) := rfl
  unfold sortLe
  rw [hcmp]
  unfold cmpDir
  rcases lt_trichotomy a.price b.price with hc | hc | hc
  · rw [if_pos (decide_eq_true hc)]
    simp [le_of_lt hc]
  · rw [if_neg (by simp [hc]), if_neg (by simp [hc])]
    simp [le_of_eq hc]
  · rw [if_neg (by simp [not_lt.mpr (le_of_lt hc)]), if_pos (decide_eq_true hc)]
    simp [not_le.mpr hc]

theorem sortProducts_price_desc (l : List Product) :
    sortProducts l "price" false
      = l.mergeSort (fun a b => decide (b.price ≤ a.price)) := by
  unfold sortProducts
  congr 1
  funext a b
  exact sortLe_price_desc a b

theorem sortProducts_price_asc (l : List Product) :
    sortProducts l "price" true
      = l.mergeSort (fun a b => decide (a.price ≤ b.price)) := by
  unfold sortProducts
  congr 1
  funext a b
  exact sortLe_price_asc a b

theorem priceLe_desc_trans : ∀ a b c : Product,
    decide (b.price ≤ a.price) → decide (c.price ≤ b.price) →
      decide (c.price ≤ a.price) := by
  intro a b c h1 h2
  simp only [decide_eq_true_eq] at *
  exact le_trans h2 h1

theorem priceLe_desc_total : ∀ a b : Product,
    (decide (b.price ≤ a.price) || decide (a.price ≤ b.price)) = true := by
  intro a b
  simp only [Bool.or_eq_true, decide_eq_true_eq]
  exact le_total b.price a.price

theorem priceLe_asc_trans : ∀ a b c : Product,
    decide (a.price ≤ b.price) → decide (b.price ≤ c.price) →
      decide (a.price ≤ c.price) := by
  intro a b c h1 h2
  simp only [decide_eq_true_eq] at *
  exact le_trans h1 h2

theorem priceLe_asc_total : ∀ a b : Product,
    (decide (a.price ≤ b.price) || decide (b.price ≤ a.price)) = true := by
  intro a b
  simp only [Bool.or_eq_true, decide_eq_true_eq]
  exact le_total a.price b.price

/-- Stability of merge sort, filter form: the sub-list of elements
agreeing under a predicate on which the order is non-strict is left
exactly as in the input. -/
theorem mergeSort_filter_fixed (le : Product → Product → Bool)
    (htrans : ∀ a b c : Product, le a b → le b c → le a c)
    (htotal : ∀ a b : Product, (le a b || le b a) = true)
    (l : List Product) (pq : Product → Bool)
    (hpq : ∀ a b, pq a → pq b → le a b = true) :
    (l.mergeSort le).filter pq = l.filter pq := by
  have hpair : (l.filter pq).Pairwise (fun a b => le a b = true) := by
    apply List.pairwise_of_forall_mem_list
    intro a ha b hb
    exact hpq a b (List.of_mem_filter ha) (List.of_mem_filter hb)
  have hsub : List.Sublist (l.filter pq) (l.mergeSort le) :=
    List.sublist_mergeSort htrans htotal hpair (List.filter_sublist l)
  have hself : (l.filter pq).filter pq = l.filter pq :=
    List.filter_eq_self.mpr (fun a ha => List.of_mem_filter ha)
  have hsub2 : List.Sublist (l.filter pq) ((l.mergeSort le).filter pq) := by
    have := hsub.filter pq
    rwa [hself] at this
  have hperm : List.Perm ((l.mergeSort le).filter pq) (l.filter pq) :=
    (List.mergeSort_perm l le).filter pq
  exact (hsub2.eq_of_length hperm.length_eq.symm).symm

/-- Two lists sorted weakly-descending by price with identical per-price
sub-lists are equal. -/
theorem sortedDesc_ext : ∀ (l₁ l₂ : List Product),
    l₁.Pairwise (fun a b => b.price ≤ a.price) →
    l₂.Pairwise (fun a b => b.price ≤ a.price) →
    (∀ q : ℚ, l₁.filter (fun x => decide (x.price = q))
      = l₂.filter (fun x => decide (x.price = q))) →
    l₁ = l₂
  | [], l₂, _, _, hf => by
    cases l₂ with
    | nil => rfl
    | cons b t₂ =>
      have h1 := hf b.price
      rw [List.filter_nil, List.filter_cons_of_pos (by simp)] at h1
      cases h1
  | a :: t₁, l₂, h₁, h₂, hf => by
    cases l₂ with
    | nil =>
      have h1 := hf a.price
      rw [List.filter_cons_of_pos (by simp), List.filter_nil] at h1
      cases h1
    | cons b t₂ =>
      have hab : a.price = b.price := by
        have h1 := hf a.price
        rw [List.filter_cons_of_pos (by simp)] at h1
        have hmem : a ∈ (b :: t₂).filter (fun x => decide (x.price = a.price)) := by
          rw [← h1]
          exact List.mem_cons_self _ _
        obtain ⟨hmem2, -⟩ := List.mem_filter.mp hmem
        have hle1 : a.price ≤ b.price := by
          rcases List.mem_cons.mp hmem2 with hcase | hcase
          · rw [hcase]
          · exact List.rel_of_pairwise_cons h₂ hcase
        have h2 := hf b.price
        have hmemb : b ∈ (a :: t₁).filter (fun x => decide (x.price = b.price)) := by
          rw [h2]
          exact List.mem_filter.mpr ⟨List.mem_cons_self _ _, by simp⟩
        obtain ⟨hmemb2, -⟩ := List.mem_filter.mp hmemb
        have hle2 : b.price ≤ a.price := by
          rcases List.mem_cons.mp hmemb2 with hcase | hcase
          · rw [hcase]
          · exact List.rel_of_pairwise_cons h₁ hcase
        exact le_antisymm hle1 hle2
      have h1 := hf a.price
      rw [List.filter_cons_of_pos (by simp), List.filter_cons_of_pos (by simp [hab])] at h1
      injection h1 with hhead htail
      subst hhead
      have hft : ∀ q : ℚ, t₁.filter (fun x => decide (x.price = q))
          = t₂.filter (fun x => decide (x.price = q)) := by
        intro q
        by_cases hq : a.price = q
        · subst hq
          exact htail
        · have h3 := hf q
          rw [List.filter_cons_of_neg (by simp [hq]),
            List.filter_cons_of_neg (by simp [hq])] at h3
          exact h3
      exact congrArg (List.cons a)
        (sortedDesc_ext t₁ t₂ (List.pairwise_cons.mp h₁).2 (List.pairwise_cons.mp h₂).2 hft)

/-- C9: `sortProducts(p, "price", false)` is a stable descending-by-price
reordering of `p` — a permutation, pairwise weakly descending in price,
with the sub-list at each price value preserved verbatim — and sorting
ascending first and then descending gives exactly the single descending
sort. -/
theorem sort_price_desc_spec (l : List Product) :
    List.Perm (sortProducts l "price" false) l
    ∧ (sortProducts l "price" false).Pairwise (fun a b => b.price ≤ a.price)
    ∧ (∀ q : ℚ, (sortProducts l "price" false).filter (fun x => decide (x.price = q))
        = l.filter (fun x => decide (x.price = q)))
    ∧ sortProducts (sortProducts l "price" true) "price" false
        = sortProducts l "price" false := by
  have hpairD : ∀ m : List Product,
      (m.mergeSort (fun a b => decide (b.price ≤ a.price))).Pairwise
        (fun a b => b.price ≤ a.price) := by
    intro m
    have := List.sorted_mergeSort priceLe_desc_trans priceLe_desc_total m
    exact this.imp (fun h => of_decide_eq_true h)
  have hfiltD : ∀ (m : List Product) (q : ℚ),
      (m.mergeSort (fun a b => decide (b.price ≤ a.price))).filter
          (fun x => decide (x.price = q))
        = m.filter (fun x => decide (x.price = q)) := by
    intro m q
    apply mergeSort_filter_fixed _ priceLe_desc_trans priceLe_desc_total
    intro a b ha hb
    have ha2 := of_decide_eq_true ha
    have hb2 := of_decide_eq_true hb
    simp [ha2, hb2]
  have hfiltA : ∀ (m : List Product) (q : ℚ),
      (m.mergeSort (fun a b => decide (a.price ≤ b.price))).filter
          (fun x => decide (x.price = q))
        = m.filter (fun x => decide (x.price = q)) := by
    intro m q
    apply mergeSort_filter_fixed _ priceLe_asc_trans priceLe_asc_total
    intro a b ha hb
    have ha2 := of_decide_eq_true ha
    have hb2 := of_decide_eq_true hb
    simp [ha2, hb2]
  refine ⟨?_, ?_, ?_, ?_⟩
  · rw [sortProducts_price_desc]
    exact List.mergeSort_perm l _
  · rw [sortProducts_price_desc]
    exact hpairD l
  · intro q
    rw [sortProducts_price_desc]
    exact hfiltD l q
  · rw [sortProducts_price_asc, sortProducts_price_desc, sortProducts_price_desc]
    apply sortedDesc_ext
    · exact hpairD _
    · exact hpairD l
    · intro q
      rw [hfiltD, hfiltA, hfiltD]
